import Mathlib

/-!
Shallow embedding of the DGL graph-library fragment: the `DGLGraph` tutorial
semantics (id allocation, edge broadcasting, feature store with schemes,
multigraph edge lookup) and the MXNet `AGNNConv` layer together with the
message-passing primitives it uses (edge softmax, `update_all`, local scope).
Structural data is embedded over `Nat`/`Int` (executable); tensor numerics are
embedded over `ℝ`.
-/

namespace DGLSpec

/-! ## Graph structure (tutorial `2_graph.py` semantics) -/

/-- Modelled from the spec: `DGLGraph` owns consecutively numbered nodes and a
list of directed edges; edge ids are positions in insertion order. The
implementation of the graph class is not under `src/`; this follows the spec
(sections 3 and 4.4) and the tutorial. -/
structure DGLGraph where
  numNodes : Nat
  edges : List (Nat × Nat)
  multigraph : Bool
deriving Repr, DecidableEq

def emptyGraph (multi : Bool) : DGLGraph :=
  { numNodes := 0, edges := [], multigraph := multi }

def addNodes (g : DGLGraph) (k : Nat) : DGLGraph :=
  { g with numNodes := g.numNodes + k }

def addEdge (g : DGLGraph) (u v : Nat) : DGLGraph :=
  { g with edges := g.edges ++ [(u, v)] }

def numberOfNodes (g : DGLGraph) : Nat := g.numNodes

def numberOfEdges (g : DGLGraph) : Nat := g.edges.length

/-- Modelled from the spec: error raised by the edge-broadcast resolver on
incompatible lengths (spec section 4.3); the resolver itself is not under
`src/`. -/
inductive BroadcastError where
  | lengthMismatch
deriving Repr, DecidableEq

/-- Modelled from the spec: EdgeBroadcastResolver (spec section 4.3 and the
tutorial note on edge broadcasting): equal lengths zip pairwise, a singleton
source broadcasts to every destination, a singleton destination broadcasts to
every source, and any other mismatch fails with BroadcastError. -/
def resolve (U V : List Nat) : Except BroadcastError (List (Nat × Nat)) :=
  if U.length = V.length then
    .ok (U.zip V)
  else if U.length = 1 then
    .ok (V.map (fun v => (U.headD 0, v)))
  else if V.length = 1 then
    .ok (U.map (fun u => (u, V.headD 0)))
  else
    .error .lengthMismatch

/-- Modelled from the spec: `add_edges` delegates broadcasting to the resolver
and then records the resulting pairs, whose ids continue the consecutive
numbering (spec section 4.4). -/
def addEdges (g : DGLGraph) (U V : List Nat) : Except BroadcastError DGLGraph :=
  match resolve U V with
  | .ok pairs => .ok { g with edges := g.edges ++ pairs }
  | .error e => .error e

/-- Modelled from the tutorial: `edge_id(u, v)` returns the ids of all edges
whose endpoint pair is `(u, v)`, in id order. The implementation is not under
`src/`; the tutorial (multigraph section) queries `edge_id(0, 1)` with two
matching edges and receives both ids. -/
def edgeId (g : DGLGraph) (u v : Nat) : List Nat :=
  (List.range g.edges.length).filter (fun e => g.edges.getD e (0, 0) = (u, v))

/-! ## Feature store (tutorial sections on node/edge features) -/

/-- One feature row; elements are modelled as integers. -/
abbrev Row := List Int

/-- A batched feature tensor: a declared per-row shape (the scheme) and the
stored rows. -/
structure Tensor where
  dim : Nat
  rows : List Row
deriving Repr, DecidableEq

def zeroRow (d : Nat) : Row := List.replicate d 0

/-- Modelled from the spec: FeatureStore errors (spec sections 4.2 and 7). -/
inductive FSError where
  | schemeMismatch
  | sizeMismatch
deriving Repr, DecidableEq

/-- Modelled from the spec: FeatureStore state — the current entity count and
an association list from feature key to stored tensor (spec section 4.2); the
store implementation is not under `src/`. -/
structure FeatStore where
  count : Nat
  feats : List (String × Tensor)
deriving Repr, DecidableEq

def emptyStore : FeatStore := { count := 0, feats := [] }

def lookupF (s : FeatStore) (k : String) : Option Tensor :=
  (s.feats.find? (fun p => p.1 == k)).map (fun p => p.2)

def insertF (l : List (String × Tensor)) (k : String) (t : Tensor) :
    List (String × Tensor) :=
  (k, t) :: l.filter (fun p => p.1 != k)

/-- Scatter writes: place each of `rows` at the corresponding id of `ids`
inside `base`, leaving the remaining positions unchanged. -/
def scatter (base : List Row) : List Nat → List Row → List Row
  | [], _ => base
  | _, [] => base
  | i :: is, r :: rs => scatter (base.set i r) is rs

/-- Whether an id list covers every entity of a store with `n` entities. -/
def coversAll (n : Nat) (ids : List Nat) : Bool :=
  (List.range n).all (fun i => ids.contains i)

/-- Modelled from the spec: FeatureStore `set` (spec section 4.2). A
full-coverage write establishes or replaces the scheme of the key; a
proper-subset write must match the existing scheme or fails with
SchemeMismatch; a first-ever subset write auto-creates a full-length tensor
filled with the default initializer (zero) before the specified rows are
written. -/
def setRepr (s : FeatStore) (k : String) (t : Tensor) (ids : Option (List Nat)) :
    Except FSError FeatStore :=
  match ids with
  | none =>
    if t.rows.length = s.count then
      .ok { s with feats := insertF s.feats k t }
    else
      .error .sizeMismatch
  | some l =>
    if coversAll s.count l then
      if t.rows.length = l.length then
        let fresh : Tensor :=
          { dim := t.dim, rows := scatter (List.replicate s.count (zeroRow t.dim)) l t.rows }
        .ok { s with feats := insertF s.feats k fresh }
      else
        .error .sizeMismatch
    else
      match lookupF s k with
      | some t0 =>
        if t.dim = t0.dim then
          let upd : Tensor := { dim := t0.dim, rows := scatter t0.rows l t.rows }
          .ok { s with feats := insertF s.feats k upd }
        else
          .error .schemeMismatch
      | none =>
        let fresh : Tensor :=
          { dim := t.dim, rows := scatter (List.replicate s.count (zeroRow t.dim)) l t.rows }
        .ok { s with feats := insertF s.feats k fresh }

def getRepr (s : FeatStore) (k : String) : Option (List Row) :=
  (lookupF s k).map (fun t => t.rows)

def schemeOf (s : FeatStore) (k : String) : Option Nat :=
  (lookupF s k).map (fun t => t.dim)

/-- Modelled from the spec: growing the entity count appends
default-initialized rows to every existing feature tensor, keeping all tensors
aligned to the new count (spec section 4.2, side effect). -/
def addEntities (s : FeatStore) (k : Nat) : FeatStore :=
  { count := s.count + k,
    feats := s.feats.map (fun p =>
      (p.1, { dim := p.2.dim, rows := p.2.rows ++ List.replicate k (zeroRow p.2.dim) })) }

/-- Operations used to describe reachable feature-store states. -/
inductive FSOp where
  | grow (k : Nat)
  | setOp (key : String) (t : Tensor) (ids : Option (List Nat))
deriving Repr

/-- Run one operation; a failed `set` leaves the store unchanged (errors are
raised at the point of violation, with no partial mutation). -/
def runOp (s : FeatStore) : FSOp → FeatStore
  | .grow k => addEntities s k
  | .setOp key t ids =>
    match setRepr s key t ids with
    | .ok s2 => s2
    | .error _ => s

def runOps (ops : List FSOp) (s : FeatStore) : FeatStore :=
  ops.foldl runOp s

/-! ## Local scope (used by `AGNNConv.forward` via `with graph.local_scope()`) -/

/-- A scoped statement: either a feature write or a failure raised partway
through the scoped computation. -/
inductive ScopeStmt where
  | sset (k : String) (v : Int)
  | sraise
deriving Repr

/-- An abstract feature-state as observed by local-scope clients. -/
abbrev ScopeState := List (String × Int)

def scopeWrite (s : ScopeState) (k : String) (v : Int) : ScopeState :=
  (k, v) :: s.filter (fun p => p.1 != k)

/-- Run the body of a scope; a `sraise` aborts the rest of the body. -/
def runScopeBody : List ScopeStmt → ScopeState → Except Unit ScopeState
  | [], s => .ok s
  | .sset k v :: rest, s => runScopeBody rest (scopeWrite s k v)
  | .sraise :: _, _ => .error ()

/-- Modelled from the spec: `local_scope` snapshots the feature state on
entry, runs the body on the working state, and restores the snapshot on every
exit path, propagating an error raised inside the scope (spec sections 4.4 and
7); the implementation is not under `src/`. The result is the observable state
after the scope together with the propagated error, if any. -/
def localScope (body : List ScopeStmt) (s : ScopeState) : ScopeState × Option Unit :=
  let snapshot := s
  match runScopeBody body s with
  | .ok _ => (snapshot, none)
  | .error e => (snapshot, some e)

/-! ## Tensor numerics over the reals -/

/-- A feature row of real numbers (one row of an MXNet NDArray). -/
abbrev Vec := List ℝ

def dot (a b : Vec) : ℝ := (List.zipWith (fun x y => x * y) a b).sum

noncomputable def l2norm (a : Vec) : ℝ := Real.sqrt ((a.map (fun x => x * x)).sum)

/-- Modelled from the spec: `normalize(feat, p=2, axis=-1)` L2-normalizes each
feature row (spec section 4.7); the MXNet helper is not under `src/`. -/
noncomputable def l2normalize (a : Vec) : Vec := a.map (fun x => x / l2norm a)

def vadd (a b : Vec) : Vec := List.zipWith (fun x y => x + y) a b

def vscale (c : ℝ) (a : Vec) : Vec := a.map (fun x => c * x)

def vsum (d : Nat) (l : List Vec) : Vec := l.foldr vadd (List.replicate d 0)

/-! ## Message-passing graph (possibly bipartite: source and destination sets) -/

/-- A graph as seen by the message-passing engine: a source node count, a
destination node count (equal for homogeneous graphs) and the edge list; the
id of an edge is its position. -/
structure BGraph where
  numSrc : Nat
  numDst : Nat
  bedges : List (Nat × Nat)
deriving Repr, DecidableEq

def srcOf (g : BGraph) (e : Nat) : Nat := (g.bedges.getD e (0, 0)).1

def dstOf (g : BGraph) (e : Nat) : Nat := (g.bedges.getD e (0, 0)).2

/-- Ids of the edges whose destination is `v`, in id order. -/
def inEdges (g : BGraph) (v : Nat) : List Nat :=
  (List.range g.bedges.length).filter (fun e => dstOf g e = v)

/-- Maximum of a list of reals (0 for the empty list, which never arises when
normalizing the in-edges of a node that has one). -/
def listMax : List ℝ → ℝ
  | [] => 0
  | x :: t => t.foldl max x

/-- Largest score among the edges pointing to `v`. -/
def maxTo (g : BGraph) (score : Nat → ℝ) (v : Nat) : ℝ :=
  listMax ((inEdges g v).map score)

/-- Modelled from the spec: EdgeSoftmax (spec section 4.6) — per-destination
numerically-stable softmax: subtract the per-destination maximum, exponentiate,
and divide by the per-destination sum of the exponentials; the implementation
is not under `src/`. -/
noncomputable def edgeSoftmax (g : BGraph) (score : Nat → ℝ) (e : Nat) : ℝ :=
  let v := dstOf g e
  let m := maxTo g score v
  Real.exp (score e - m) /
    (((inEdges g v).map (fun e2 => Real.exp (score e2 - m))).sum)

/-- Modelled from the spec: `update_all` with a per-edge message function and
sum reduction (spec section 4.5) — every destination row is materialized; a
node with no incoming edges receives the identity element (the zero vector). -/
def updateAll (g : BGraph) (d : Nat) (msg : Nat → Vec) : List Vec :=
  (List.range g.numDst).map (fun v => vsum d ((inEdges g v).map msg))

/-! ## AGNNConv.forward (translated from `agnnconv.py`) -/

/-- Input to `AGNNConv.forward`: a single feature tensor, or a
(source, destination) pair for bipartite input. Features are kept as
functions from node id to row. -/
inductive FeatInput where
  | single (h : Nat → Vec)
  | pair (hs hd : Nat → Vec)

/-- Modelled from the spec: `expand_as_pair` returns a tuple unchanged and
duplicates a single tensor into a (source, destination) pair; the utility is
not under `src/`. -/
def expand_as_pair : FeatInput → (Nat → Vec) × (Nat → Vec)
  | .single h => (h, h)
  | .pair hs hd => (hs, hd)

/-- Node-data store used inside the layer (srcdata / dstdata): keyed feature
functions, most recent write first. -/
abbrev NData := List (String × (Nat → Vec))

def nset (s : NData) (k : String) (f : Nat → Vec) : NData := (k, f) :: s

def nget (s : NData) (k : String) : Option (Nat → Vec) :=
  (s.find? (fun p => p.1 == k)).map (fun p => p.2)

/-- Translated from `AGNNConv.forward` (`agnnconv.py`, lines 62 to 74):
inside a local scope, expand the input into a source/destination pair, write
the source feature and its L2 normalization into srcdata, write the
destination normalization into dstdata only when the input was a pair (for a
single input on a homogeneous graph, dstdata is the same store as srcdata),
compute per-edge cosine via a dot of the normalized endpoint features, scale
by beta, take edge softmax to get the attention weights, and return
`update_all` of (source feature times weight) with sum reduction. Reading a
key that was never written yields `none`, as the real store would raise. -/
noncomputable def agnnForward (g : BGraph) (beta : ℝ) (d : Nat) (feat : FeatInput) :
    Option (List Vec) :=
  let featSrc := (expand_as_pair feat).1
  let featDst := (expand_as_pair feat).2
  let sdata : NData := nset (nset [] "h" featSrc) "norm_h" (fun u => l2normalize (featSrc u))
  let ddata : NData :=
    match feat with
    | .single _ => sdata
    | .pair _ _ => nset [] "norm_h" (fun v => l2normalize (featDst v))
  match nget sdata "norm_h", nget ddata "norm_h", nget sdata "h" with
  | some nhs, some nhd, some hs =>
    let cos := fun e => dot (nhs (srcOf g e)) (nhd (dstOf g e))
    let p := fun e => edgeSoftmax g (fun e2 => beta * cos e2) e
    some (updateAll g d (fun e => vscale (p e) (hs (srcOf g e))))
  | _, _, _ => none

/-! ## Concrete instances used by the tutorial and the testable properties -/

/-- A feature store is aligned when every stored tensor has exactly one row
per entity. -/
def WFStore (s : FeatStore) : Prop :=
  ∀ p ∈ s.feats, p.2.rows.length = s.count

/-- The multigraph of the tutorial: five nodes and the edges
(0,1), (1,2), (0,1). -/
def multiG : DGLGraph :=
  { numNodes := 5, edges := [(0, 1), (1, 2), (0, 1)], multigraph := true }

/-- A store with ten entities holding one key of scheme 3, as after the
tutorial sets the node feature `hv`. -/
def hvStore : FeatStore :=
  { count := 10, feats := [("hv", { dim := 3, rows := List.replicate 10 (zeroRow 3) })] }

/-- A two-node graph with the single edge (0, 1). -/
def oneEdgeG : BGraph := { numSrc := 2, numDst := 2, bedges := [(0, 1)] }

/-- A three-node graph with two edges pointing to node 0. -/
def twoInG : BGraph := { numSrc := 3, numDst := 3, bedges := [(1, 0), (2, 0)] }

/-- The tutorial star graph as a message-passing graph: ten nodes, nine edges
from the leaves 1..9 to the center 0. -/
def starB : BGraph :=
  { numSrc := 10, numDst := 10,
    bedges := [(1, 0), (2, 0), (3, 0), (4, 0), (5, 0), (6, 0), (7, 0), (8, 0), (9, 0)] }

/-- Each leaf of the star carries the scalar feature value 1. -/
def starFeat : Nat → Vec := fun _ => [1]

/-! ## Helper lemmas -/

theorem scatter_length (ids : List Nat) (rows : List Row) (base : List Row) :
    (scatter base ids rows).length = base.length := by
  induction ids generalizing rows base with
  | nil => cases rows <;> rfl
  | cons i is ih =>
    cases rows with
    | nil => rfl
    | cons r rs => simpa [scatter] using ih rs (base.set i r)

theorem mem_insertF {l : List (String × Tensor)} {k : String} {t : Tensor}
    {p : String × Tensor} (h : p ∈ insertF l k t) : p = (k, t) ∨ p ∈ l := by
  rcases List.mem_cons.mp h with h1 | h1
  · exact Or.inl h1
  · exact Or.inr (List.mem_filter.mp h1).1

theorem lookupF_insertF (s : FeatStore) (k : String) (t : Tensor) :
    lookupF { s with feats := insertF s.feats k t } k = some t := by
  simp [lookupF, insertF, List.find?]

theorem lookupF_mem {s : FeatStore} {k : String} {t : Tensor}
    (h : lookupF s k = some t) : ∃ q ∈ s.feats, q.2 = t := by
  unfold lookupF at h
  cases hf : s.feats.find? (fun p => p.1 == k) with
  | none => rw [hf] at h; simp at h
  | some q =>
    rw [hf] at h
    simp at h
    exact ⟨q, List.mem_of_find?_eq_some hf, h⟩

theorem wf_emptyStore : WFStore emptyStore := by
  intro p hp
  simp [emptyStore] at hp

theorem wf_addEntities (s : FeatStore) (k : Nat) (hs : WFStore s) :
    WFStore (addEntities s k) := by
  intro p hp
  simp only [addEntities, List.mem_map] at hp
  obtain ⟨q, hq, rfl⟩ := hp
  simp [addEntities, hs q hq]

theorem wf_setRepr {s : FeatStore} {k : String} {t : Tensor} {ids : Option (List Nat)}
    {s2 : FeatStore} (hs : WFStore s) (h : setRepr s k t ids = .ok s2) : WFStore s2 := by
  have key : ∀ T : Tensor, T.rows.length = s.count →
      WFStore { s with feats := insertF s.feats k T } := by
    intro T hT p hp
    rcases mem_insertF hp with h1 | h1
    · subst h1; exact hT
    · exact hs p h1
  unfold setRepr at h
  cases ids with
  | none =>
    simp only at h
    split at h
    · cases h
      exact key t (by assumption)
    · cases h
  | some l =>
    simp only at h
    split at h
    · split at h
      · cases h
        exact key _ (by simp [scatter_length])
      · cases h
    · split at h
      · split at h
        · cases h
          rename_i t0 hlook _
          obtain ⟨q, hq, hq2⟩ := lookupF_mem hlook
          have : t0.rows.length = s.count := by rw [← hq2]; exact hs q hq
          exact key _ (by simp [scatter_length, this])
        · cases h
      · cases h
        exact key _ (by simp [scatter_length])

theorem wf_runOp (s : FeatStore) (op : FSOp) (hs : WFStore s) : WFStore (runOp s op) := by
  cases op with
  | grow k => exact wf_addEntities s k hs
  | setOp key t ids =>
    cases h : setRepr s key t ids with
    | ok s2 =>
      have heq : runOp s (.setOp key t ids) = s2 := by simp [runOp, h]
      rw [heq]
      exact wf_setRepr hs h
    | error e =>
      have heq : runOp s (.setOp key t ids) = s := by simp [runOp, h]
      rw [heq]
      exact hs

theorem wf_runOps (ops : List FSOp) (s : FeatStore) (hs : WFStore s) :
    WFStore (runOps ops s) := by
  induction ops generalizing s with
  | nil => exact hs
  | cons op rest ih => exact ih (runOp s op) (wf_runOp s op hs)

/-! ## Claims about the feature store and graph structure -/

/-- C8: for every reachable feature-store state and every stored key, the
stored tensor has one row per entity; and a first-ever write to a new key
covering only a subset of ids creates a full-length tensor whose unspecified
rows come from the default (zero) initializer before the specified rows are
written. -/
theorem C8_get_row_alignment :
    (∀ ops k t, lookupF (runOps ops emptyStore) k = some t →
      t.rows.length = (runOps ops emptyStore).count)
    ∧ (∀ s k t l, lookupF s k = none → coversAll s.count l = false →
        ∃ s2, setRepr s k t (some l) = .ok s2 ∧
          lookupF s2 k =
            some ⟨t.dim, scatter (List.replicate s.count (zeroRow t.dim)) l t.rows⟩ ∧
          (scatter (List.replicate s.count (zeroRow t.dim)) l t.rows).length = s.count) := by
  constructor
  · intro ops k t h
    obtain ⟨q, hq, hq2⟩ := lookupF_mem h
    rw [← hq2]
    exact wf_runOps ops emptyStore wf_emptyStore q hq
  · intro s k t l hnone hsub
    refine ⟨{ s with feats := insertF s.feats k ⟨t.dim, scatter (List.replicate s.count (zeroRow t.dim)) l t.rows⟩ }, ?_, ?_, by simp [scatter_length]⟩
    · simp [setRepr, hsub, hnone]
    · exact lookupF_insertF s k _

/-- C8 witness: replaying the tutorial, a store that grew to ten entities and
holds `hv` satisfies the row-alignment invariant, and the first subset write
of `hv_1` at ids 0, 2, 4 creates a full ten-row tensor with zero rows
elsewhere. -/
theorem C8_witness :
    ((⟨3, List.replicate 10 (zeroRow 3)⟩ : Tensor).rows.length =
      (runOps [.grow 10, .setOp "hv" ⟨3, List.replicate 10 (zeroRow 3)⟩ none] emptyStore).count)
    ∧ (∃ s2, setRepr hvStore "hv_1" ⟨4, [[1,1,1,1],[1,1,1,1],[1,1,1,1]]⟩ (some [0,2,4]) = .ok s2 ∧
        lookupF s2 "hv_1" =
          some ⟨4, scatter (List.replicate hvStore.count (zeroRow 4)) [0,2,4]
            [[1,1,1,1],[1,1,1,1],[1,1,1,1]]⟩ ∧
        (scatter (List.replicate hvStore.count (zeroRow 4)) [0,2,4]
          [[1,1,1,1],[1,1,1,1],[1,1,1,1]]).length = hvStore.count) :=
  ⟨C8_get_row_alignment.1 [.grow 10, .setOp "hv" ⟨3, List.replicate 10 (zeroRow 3)⟩ none]
      "hv" ⟨3, List.replicate 10 (zeroRow 3)⟩ (by decide),
   C8_get_row_alignment.2 hvStore "hv_1" ⟨4, [[1,1,1,1],[1,1,1,1],[1,1,1,1]]⟩ [0,2,4]
      (by decide) (by decide)⟩

/-- C7: a partial write whose per-row scheme conflicts with the established
scheme of the key fails with SchemeMismatch and leaves the store unchanged; a
full-coverage write with a new scheme succeeds and replaces the scheme of the
key. -/
theorem C7_scheme_rules :
    (∀ s k t t0 l, coversAll s.count l = false → lookupF s k = some t0 → t.dim ≠ t0.dim →
        setRepr s k t (some l) = .error .schemeMismatch ∧ runOp s (.setOp k t (some l)) = s)
    ∧ (∀ s k t, t.rows.length = s.count →
        ∃ s2, setRepr s k t none = .ok s2 ∧ schemeOf s2 k = some t.dim ∧ s2.count = s.count) := by
  constructor
  · intro s k t t0 l hsub hlook hdim
    have herr : setRepr s k t (some l) = .error .schemeMismatch := by
      simp [setRepr, hsub, hlook, hdim]
    exact ⟨herr, by simp [runOp, herr]⟩
  · intro s k t hlen
    refine ⟨{ s with feats := insertF s.feats k t }, by simp [setRepr, hlen], ?_, rfl⟩
    simp [schemeOf, lookupF_insertF]

/-- C7 witness: on the tutorial store (ten entities, key `hv` of scheme 3), a
partial write of scheme 6 at ids 0, 2, 4 fails with SchemeMismatch and leaves
the store unchanged, while a full write of scheme 6 succeeds and replaces the
scheme. -/
theorem C7_witness :
    (setRepr hvStore "hv" ⟨6, [zeroRow 6, zeroRow 6, zeroRow 6]⟩ (some [0,2,4]) =
        .error .schemeMismatch
      ∧ runOp hvStore (.setOp "hv" ⟨6, [zeroRow 6, zeroRow 6, zeroRow 6]⟩ (some [0,2,4])) =
        hvStore)
    ∧ (∃ s2, setRepr hvStore "hv" ⟨6, List.replicate 10 (zeroRow 6)⟩ none = .ok s2 ∧
        schemeOf s2 "hv" = some 6 ∧ s2.count = hvStore.count) :=
  ⟨C7_scheme_rules.1 hvStore "hv" ⟨6, [zeroRow 6, zeroRow 6, zeroRow 6]⟩
      ⟨3, List.replicate 10 (zeroRow 3)⟩ [0,2,4] (by decide) (by decide) (by decide),
   C7_scheme_rules.2 hvStore "hv" ⟨6, List.replicate 10 (zeroRow 6)⟩ (by decide)⟩

/-- C5: every feature mutation performed strictly inside a local scope is
invisible after the scope exits — the observable state after the scope equals
the state at entry on every exit path, including when the scoped computation
raises partway through (in which case the error propagates). -/
theorem C5_local_scope_restore :
    ∀ body s, (localScope body s).1 = s ∧
      ((localScope body s).2 = some () ↔ runScopeBody body s = .error ()) := by
  intro body s
  unfold localScope
  cases h : runScopeBody body s with
  | ok s2 => simp [h]
  | error e => cases e; simp [h]

/-- C6: edge broadcasting zips equal-length specifications pairwise,
broadcasts a singleton source over every destination and a singleton
destination over every source, fails with BroadcastError on any other
mismatch, and `add_edges` assigns consecutive edge ids to the resulting pairs
in order. -/
theorem C6_broadcast :
    (∀ U V : List Nat, U.length = V.length → resolve U V = .ok (U.zip V))
    ∧ resolve [0, 1, 2] [5] = .ok [(0, 5), (1, 5), (2, 5)]
    ∧ resolve [0] [5, 6, 7] = .ok [(0, 5), (0, 6), (0, 7)]
    ∧ resolve [0, 1] [5, 6, 7] = .error .lengthMismatch
    ∧ (∀ g U V pairs, resolve U V = .ok pairs →
        ∃ g2, addEdges g U V = .ok g2 ∧
          numberOfEdges g2 = numberOfEdges g + pairs.length ∧
          ∀ i, i < pairs.length →
            g2.edges.getD (g.edges.length + i) (0, 0) = pairs.getD i (0, 0)) := by
  refine ⟨?_, rfl, rfl, rfl, ?_⟩
  · intro U V h
    simp [resolve, h]
  intro g U V pairs h
  refine ⟨{ g with edges := g.edges ++ pairs }, by simp [addEdges, h], ?_, ?_⟩
  · simp [numberOfEdges]
  · intro i hi
    simp only [List.getD_eq_getElem?_getD, List.getElem?_append_right (Nat.le_add_right _ _),
      Nat.add_sub_cancel_left]

/-- C6 witness: an equal-length pair of specifications zips pairwise, and
building the tutorial star graph through broadcasting — nine sources and the
singleton destination 0 resolve to nine pairs that receive the consecutive
edge ids 0..8. -/
theorem C6_witness :
    resolve [0, 1] [5, 6] = .ok ([0, 1].zip [5, 6])
    ∧ ∃ g2, addEdges (addNodes (emptyGraph false) 10) [1,2,3,4,5,6,7,8,9] [0] = .ok g2 ∧
      numberOfEdges g2 = numberOfEdges (addNodes (emptyGraph false) 10) +
        [(1,0),(2,0),(3,0),(4,0),(5,0),(6,0),(7,0),(8,0),(9,0)].length ∧
      ∀ i, i < [(1,0),(2,0),(3,0),(4,0),(5,0),(6,0),(7,0),(8,0),(9,0)].length →
        g2.edges.getD ((addNodes (emptyGraph false) 10).edges.length + i) (0, 0) =
          [(1,0),(2,0),(3,0),(4,0),(5,0),(6,0),(7,0),(8,0),(9,0)].getD i (0, 0) :=
  ⟨C6_broadcast.1 [0, 1] [5, 6] rfl,
   C6_broadcast.2.2.2.2 (addNodes (emptyGraph false) 10) [1,2,3,4,5,6,7,8,9] [0]
    [(1,0),(2,0),(3,0),(4,0),(5,0),(6,0),(7,0),(8,0),(9,0)] rfl⟩

/-- C9 counterexample: in the tutorial multigraph with the edge (0, 1) added
twice, the endpoint lookup `edge_id(0, 1)` matches two edges and succeeds,
returning both ids with no all-matches mode requested, instead of failing
with AmbiguousEdge as the claim states. -/
theorem C9_counterexample :
    edgeId multiG 0 1 = [0, 2] ∧ 2 ≤ (edgeId multiG 0 1).length := by
  decide

/-! ## Helper lemmas for the real-valued layer -/

theorem foldl_max_const {c : ℝ} :
    ∀ (t : List ℝ) (x : ℝ), (∀ y ∈ t, y = c) → x = c → t.foldl max x = c := by
  intro t
  induction t with
  | nil => intro x _ hx; exact hx
  | cons y t ih =>
    intro x hm hx
    have hy : y = c := hm y (List.mem_cons_self y t)
    have : max x y = c := by rw [hx, hy, max_self]
    exact ih (max x y) (fun z hz => hm z (List.mem_cons_of_mem y hz)) this

theorem listMax_const {c : ℝ} {l : List ℝ} (hne : l ≠ []) (h : ∀ x ∈ l, x = c) :
    listMax l = c := by
  cases l with
  | nil => exact absurd rfl hne
  | cons x t =>
    exact foldl_max_const t x (fun y hy => h y (List.mem_cons_of_mem x hy))
      (h x (List.mem_cons_self x t))

theorem sum_map_ones {α : Type} (l : List α) (f : α → ℝ) (h : ∀ x ∈ l, f x = 1) :
    (l.map f).sum = (l.length : ℝ) := by
  induction l with
  | nil => simp
  | cons x t ih =>
    simp only [List.map_cons, List.sum_cons, List.length_cons,
      h x (List.mem_cons_self x t), ih (fun y hy => h y (List.mem_cons_of_mem x hy))]
    push_cast
    ring

theorem sum_map_div {α : Type} (l : List α) (f : α → ℝ) (c : ℝ) :
    (l.map (fun x => f x / c)).sum = (l.map f).sum / c := by
  induction l with
  | nil => simp
  | cons x t ih => simp [ih, add_div]

theorem vadd_length (a b : Vec) : (vadd a b).length = min a.length b.length := by
  simp [vadd]

theorem vsum_length (d : Nat) (l : List Vec) (h : ∀ x ∈ l, x.length = d) :
    (vsum d l).length = d := by
  induction l with
  | nil => simp [vsum]
  | cons x t ih =>
    have hx : x.length = d := h x (List.mem_cons_self x t)
    have ht : (vsum d t).length = d := ih (fun y hy => h y (List.mem_cons_of_mem x hy))
    simp [vsum, vadd] at ht ⊢
    omega

theorem updateAll_length (g : BGraph) (d : Nat) (msg : Nat → Vec) :
    (updateAll g d msg).length = g.numDst := by
  simp [updateAll]

theorem updateAll_getD (g : BGraph) (d : Nat) (msg : Nat → Vec) (v : Nat)
    (hv : v < g.numDst) :
    (updateAll g d msg).getD v [] = vsum d ((inEdges g v).map msg) := by
  simp [updateAll, List.getD_eq_getElem?_getD, List.getElem?_map, List.getElem?_range, hv]

theorem softmax_single (g : BGraph) (score : Nat → ℝ) (e : Nat)
    (h : inEdges g (dstOf g e) = [e]) : edgeSoftmax g score e = 1 := by
  simp only [edgeSoftmax, maxTo, h, listMax, List.map_cons, List.map_nil, List.foldl_nil,
    List.sum_cons, List.sum_nil, add_zero]
  exact div_self (Real.exp_ne_zero _)

theorem softmax_const (g : BGraph) (score : Nat → ℝ) (e : Nat) (c : ℝ)
    (he : e ∈ inEdges g (dstOf g e))
    (hc : ∀ e2 ∈ inEdges g (dstOf g e), score e2 = c) :
    edgeSoftmax g score e = 1 / ((inEdges g (dstOf g e)).length : ℝ) := by
  have hne : inEdges g (dstOf g e) ≠ [] := List.ne_nil_of_mem he
  have hm : maxTo g score (dstOf g e) = c := by
    apply listMax_const
    · simpa using hne
    · intro x hx
      obtain ⟨e2, he2, rfl⟩ := List.mem_map.mp hx
      exact hc e2 he2
  have hsum : ((inEdges g (dstOf g e)).map
      (fun e2 => Real.exp (score e2 - maxTo g score (dstOf g e)))).sum =
      ((inEdges g (dstOf g e)).length : ℝ) := by
    apply sum_map_ones
    intro e2 he2
    rw [hm, hc e2 he2, sub_self, Real.exp_zero]
  rw [hm] at hsum
  simp only [edgeSoftmax, hsum, hm, hc e he, sub_self, Real.exp_zero]

/-- Evaluation lemma for the translated forward pass: the store reads resolve
and the layer returns `update_all` of (source feature times softmax weight). -/
theorem agnnForward_eval (g : BGraph) (beta : ℝ) (d : Nat) (feat : FeatInput) :
    agnnForward g beta d feat = some (updateAll g d (fun e =>
      vscale (edgeSoftmax g (fun e2 => beta *
          dot (l2normalize ((expand_as_pair feat).1 (srcOf g e2)))
              (l2normalize ((expand_as_pair feat).2 (dstOf g e2)))) e)
        ((expand_as_pair feat).1 (srcOf g e)))) := by
  cases feat with
  | single h => rfl
  | pair hs hd => rfl

/-! ## Claims about the layer and message passing -/

/-- C2 counterexample: on the one-edge graph with score 1 on the edge, the
modelled edge softmax yields 1, while the claimed formula — the raw score
divided by the sum of exponentials — yields 1 divided by exp 1, which is
less than 1; the claim as stated is false. -/
theorem C2_counterexample :
    edgeSoftmax oneEdgeG (fun _ => 1) 0 ≠
      (fun _ : Nat => (1 : ℝ)) 0 /
        (((inEdges oneEdgeG (dstOf oneEdgeG 0)).map
          (fun e2 => Real.exp ((fun _ : Nat => (1 : ℝ)) e2))).sum) := by
  have hL : edgeSoftmax oneEdgeG (fun _ => 1) 0 = 1 :=
    softmax_single oneEdgeG (fun _ => 1) 0 rfl
  have hin : inEdges oneEdgeG (dstOf oneEdgeG 0) = [0] := rfl
  rw [hL, hin]
  simp only [List.map_cons, List.map_nil, List.sum_cons, List.sum_nil, add_zero]
  have h2 : (2 : ℝ) ≤ Real.exp 1 := by
    have := Real.add_one_le_exp (1 : ℝ)
    linarith
  have : (1 : ℝ) / Real.exp 1 < 1 := by
    rw [div_lt_one (by positivity)]
    linarith
  exact ne_of_gt this

/-- C2 amended: edge softmax assigns to every edge the exponential of its
score divided by the sum of the exponentials of the scores of all edges with
the same destination; the max subtraction performed for numerical stability
leaves this value unchanged. -/
theorem C2_amended :
    ∀ g score e, edgeSoftmax g score e =
      Real.exp (score e) /
        (((inEdges g (dstOf g e)).map (fun e2 => Real.exp (score e2))).sum) := by
  intro g score e
  simp only [edgeSoftmax, Real.exp_sub]
  rw [sum_map_div]
  exact div_div_div_cancel_right₀ (Real.exp_ne_zero _) _ _

/-- C3: a destination node with in-degree exactly 1 receives softmax weight
exactly 1 on its single incoming edge, and a destination node whose incoming
edges all carry equal scores receives weight one over its in-degree on each
of them. -/
theorem C3_softmax_degrees :
    (∀ g score e, inEdges g (dstOf g e) = [e] → edgeSoftmax g score e = 1)
    ∧ (∀ g score e c, e ∈ inEdges g (dstOf g e) →
        (∀ e2 ∈ inEdges g (dstOf g e), score e2 = c) →
        edgeSoftmax g score e = 1 / ((inEdges g (dstOf g e)).length : ℝ)) :=
  ⟨softmax_single, softmax_const⟩

/-- C3 witness: on the one-edge graph the single incoming edge gets weight 1;
on the graph with two equal-score edges into node 0 each gets weight 1/2. -/
theorem C3_witness :
    edgeSoftmax oneEdgeG (fun _ => (1 : ℝ)) 0 = 1 ∧
    edgeSoftmax twoInG (fun _ => (0 : ℝ)) 0 =
      1 / ((inEdges twoInG (dstOf twoInG 0)).length : ℝ) ∧
    ((inEdges twoInG (dstOf twoInG 0)).length : ℝ) = 2 :=
  ⟨C3_softmax_degrees.1 oneEdgeG (fun _ => (1 : ℝ)) 0 rfl,
   C3_softmax_degrees.2 twoInG (fun _ => (0 : ℝ)) 0 0 (by decide) (fun e2 _ => rfl),
   by norm_num [show inEdges twoInG (dstOf twoInG 0) = [0, 1] from rfl]⟩

/-- C4: update_all with sum reduction materializes one output row per
destination node, the in-degree-zero rows holding the identity element (the
zero vector); on the star graph with nine leaves of feature value 1 pointing
to node 0, the output row of node 0 is 9 and every other row is 0. -/
theorem C4_update_all :
    ((∀ g d msg, (updateAll g d msg).length = g.numDst)
      ∧ (∀ g d msg v, v < g.numDst → inEdges g v = [] →
          (updateAll g d msg).getD v [] = List.replicate d 0))
    ∧ updateAll starB 1 (fun e => starFeat (srcOf starB e)) =
        [(9 : ℝ)] :: List.replicate 9 [(0 : ℝ)] := by
  refine ⟨⟨updateAll_length, ?_⟩, ?_⟩
  · intro g d msg v hv hempty
    rw [updateAll_getD g d msg v hv, hempty]
    rfl
  · rw [show updateAll starB 1 (fun e => starFeat (srcOf starB e)) =
        (List.range 10).map (fun v => vsum 1 ((inEdges starB v).map
          (fun e => starFeat (srcOf starB e)))) from rfl]
    rw [show List.range 10 = [0, 1, 2, 3, 4, 5, 6, 7, 8, 9] from rfl]
    norm_num [show inEdges starB 0 = [0, 1, 2, 3, 4, 5, 6, 7, 8] from rfl,
      show inEdges starB 1 = [] from rfl, show inEdges starB 2 = [] from rfl,
      show inEdges starB 3 = [] from rfl, show inEdges starB 4 = [] from rfl,
      show inEdges starB 5 = [] from rfl, show inEdges starB 6 = [] from rfl,
      show inEdges starB 7 = [] from rfl, show inEdges starB 8 = [] from rfl,
      show inEdges starB 9 = [] from rfl, starFeat, vsum, vadd, List.replicate]

/-- C4 witness: leaf node 3 of the star has no incoming edges and its output
row is the identity element. -/
theorem C4_witness :
    (updateAll starB 1 (fun e => starFeat (srcOf starB e))).getD 3 [] =
      List.replicate 1 (0 : ℝ) :=
  C4_update_all.1.2 starB 1 (fun e => starFeat (srcOf starB e)) 3 (by decide) (by decide)

/-- C1: the forward pass of AGNNConv returns, for every destination node, the
sum over its incoming edges of the source feature scaled by the attention
weight, where the attention weights are the edge softmax of beta times the
cosine similarity (dot product of the L2-normalized endpoint features); the
output has one row per destination node and the input feature dimension. -/
theorem C1_agnn_forward (g : BGraph) (beta : ℝ) (d : Nat) (feat : FeatInput)
    (hdim : ∀ u, ((expand_as_pair feat).1 u).length = d) :
    ∃ out, agnnForward g beta d feat = some out ∧
      out.length = g.numDst ∧
      (∀ r ∈ out, r.length = d) ∧
      (∀ v, v < g.numDst → out.getD v [] =
        vsum d ((inEdges g v).map (fun e =>
          vscale (edgeSoftmax g (fun e2 => beta *
              dot (l2normalize ((expand_as_pair feat).1 (srcOf g e2)))
                  (l2normalize ((expand_as_pair feat).2 (dstOf g e2)))) e)
            ((expand_as_pair feat).1 (srcOf g e))))) := by
  refine ⟨_, agnnForward_eval g beta d feat, updateAll_length g d _, ?_, ?_⟩
  · intro r hr
    simp only [updateAll, List.mem_map] at hr
    obtain ⟨v, _, rfl⟩ := hr
    apply vsum_length
    intro x hx
    obtain ⟨e, _, rfl⟩ := List.mem_map.mp hx
    simp [vscale, hdim]
  · intro v hv
    exact updateAll_getD g d _ v hv

/-- C1 witness: the forward pass on the one-edge graph with scalar features
satisfies the contract. -/
theorem C1_witness :
    ∃ out, agnnForward oneEdgeG 1 1 (.single starFeat) = some out ∧
      out.length = oneEdgeG.numDst ∧
      (∀ r ∈ out, r.length = 1) ∧
      (∀ v, v < oneEdgeG.numDst → out.getD v [] =
        vsum 1 ((inEdges oneEdgeG v).map (fun e =>
          vscale (edgeSoftmax oneEdgeG (fun e2 => 1 *
              dot (l2normalize ((expand_as_pair (.single starFeat)).1 (srcOf oneEdgeG e2)))
                  (l2normalize ((expand_as_pair (.single starFeat)).2 (dstOf oneEdgeG e2)))) e)
            ((expand_as_pair (.single starFeat)).1 (srcOf oneEdgeG e))))) :=
  C1_agnn_forward oneEdgeG 1 1 (.single starFeat) (fun _ => rfl)

/-- C10: on a homogeneous graph (equal source and destination node sets) the
single-tensor input path and the pair input path of AGNNConv.forward agree:
feeding feat is the same as feeding the pair (feat, feat). -/
theorem C10_single_pair_equiv (g : BGraph) (beta : ℝ) (d : Nat) (h : Nat → Vec)
    (_hg : g.numSrc = g.numDst) :
    agnnForward g beta d (.single h) = agnnForward g beta d (.pair h h) := by
  rfl

/-- C10 witness: the two input paths agree on the homogeneous one-edge graph
with scalar features. -/
theorem C10_witness :
    agnnForward oneEdgeG 1 1 (.single starFeat) =
      agnnForward oneEdgeG 1 1 (.pair starFeat starFeat) :=
  C10_single_pair_equiv oneEdgeG 1 1 starFeat rfl

/-- C9 amended: in a multigraph, `edge_id(u, v)` returns the ids of all edges
with endpoint pair (u, v), in increasing id order; a specific edge among
duplicates is then addressed by its explicit id. -/
theorem C9_amended :
    ∀ g u v, List.Pairwise (fun a b => a < b) (edgeId g u v) ∧
      ∀ e, e ∈ edgeId g u v ↔ (e < g.edges.length ∧ g.edges.getD e (0, 0) = (u, v)) := by
  intro g u v
  constructor
  · exact (List.pairwise_lt_range _).sublist (List.filter_sublist _)
  · intro e
    simp [edgeId, List.mem_filter, List.mem_range]

end DGLSpec
